import Mathlib

set_option maxHeartbeats 1000000
set_option maxRecDepth 6000

/-
Verification development for the TM-IntelliMind chunk-orchestration pipeline.

The Lean definitions below are a shallow embedding of the Python sources:
  src/core/chunk_transcription.py      (transcribe_audio_with_timeout,
                                        ChunkTranscriber.transcribe_chunk,
                                        ChunkTranscriber.remove_overlap_text,
                                        ChunkTranscriber.reassemble_transcript)
  src/core/audio_chunking.py           (AudioChunker.create_time_based_chunks,
                                        AudioChunker.create_vad_aware_chunks)
  src/core/progressive_transcription.py (ProgressiveTranscriber._should_finish,
                                        ProgressiveTranscriber._check_stuck_threads)

Modelling conventions:
  - Python floats (durations, timestamps) are modelled as exact rationals.
  - Python strings are Lean Strings; str.split() / str.strip() / str.lower()
    and ' '.join are modelled character-by-character below.
  - Database rows (AudioChunk) become plain records; querysets become lists.
  - Fallible paths (try/except arms) are modelled as separate definitions
    named ...onFailure, embedding exactly the handler's return value.
-/

/-! ## Character-level models of the Python string primitives -/

/-- Whitespace test used by Python str.split() / str.strip(). -/
def isWS (c : Char) : Bool := c.isWhitespace

/-- Negation of the whitespace test. -/
def nonWS (c : Char) : Bool := !isWS c

/-- Recursion-theoretic form of the word splitter: maximal non-whitespace
runs expressed with takeWhile / dropWhile; used for reasoning. -/
def wordsRec (l : List Char) : List (List Char) :=
  match l with
  | [] => []
  | c :: cs =>
    if isWS c then wordsRec cs
    else (c :: cs.takeWhile nonWS) :: wordsRec (cs.dropWhile nonWS)
termination_by l.length
decreasing_by
  · simp only [List.length_cons]; omega
  · have h : (cs.dropWhile nonWS).length ≤ cs.length := by
      induction cs with
      | nil => simp
      | cons a l ih =>
        by_cases hp : nonWS a
        · simp only [List.dropWhile_cons, if_pos hp, List.length_cons]
          omega
        · simp [List.dropWhile_cons, if_neg hp]
    simp only [List.length_cons]; omega

/-- One-pass accumulator splitter: acc holds the reversed current word. -/
def splitGo : List Char → List Char → List (List Char)
  | [], acc => if acc.isEmpty then [] else [acc.reverse]
  | c :: cs, acc =>
    if isWS c then
      if acc.isEmpty then splitGo cs [] else acc.reverse :: splitGo cs []
    else splitGo cs (c :: acc)

/-- Model of Python str.split() at the character level: maximal runs of
non-whitespace characters, empty pieces discarded. Structural recursion, so
it evaluates inside the kernel; proved equal to wordsRec below. -/
def words (l : List Char) : List (List Char) := splitGo l []

/-- Model of Python ' '.join at the character level. -/
def joinSp : List (List Char) → List Char
  | [] => []
  | [w] => w
  | w :: ws => w ++ ' ' :: joinSp ws

/-- Model of Python str.strip() at the character level. -/
def stripChars (l : List Char) : List Char :=
  ((l.dropWhile isWS).reverse.dropWhile isWS).reverse

/-- Python s.split() on a Lean String. -/
def pyWords (s : String) : List String := (words s.data).map String.mk

/-- Python ' '.join(ws) on Lean Strings. -/
def joinWords (ws : List String) : String := String.mk (joinSp (ws.map String.data))

/-- Python s.strip() on a Lean String. -/
def pyStrip (s : String) : String := String.mk (stripChars s.data)

/-- Python s.lower() on a Lean String (ASCII-faithful). -/
def pyLower (s : String) : String := String.mk (s.data.map Char.toLower)

/-- Python int() applied to a rational: truncation toward zero. -/
def pyInt (q : ℚ) : ℤ := if q < 0 then -((-q).floor) else q.floor

/-- Python min on two rationals (first argument wins ties). -/
def pyMin (a b : ℚ) : ℚ := if a ≤ b then a else b

/-- Python max on two rationals (first argument wins ties). -/
def pyMax (a b : ℚ) : ℚ := if b ≤ a then a else b

/-! ## remove_overlap_text (src/core/chunk_transcription.py lines 116-175) -/

/-- Count of positions where the two word lists agree case-insensitively,
modelling sum(1 for a, b in zip(ps, cs) if a.lower() == b.lower()). -/
def countLowerMatches (ps cs : List String) : Nat :=
  (List.zip ps cs).countP (fun ab => decide (pyLower ab.1 = pyLower ab.2))

/-- One candidate test of the overlap search (lines 152-162): the last i words
of the previous text against the first i words of the current text; accepted
on exact equality, or on a case-insensitive match rate of at least 0.7. -/
def overlapMatchAt (prevWords currWords : List String) (i : Nat) : Bool :=
  let prevTail := prevWords.drop (prevWords.length - i)
  let currHead := currWords.take i
  decide (prevTail = currHead) ||
    (prevTail.length == currHead.length &&
      decide ((countLowerMatches prevTail currHead : ℚ) / (prevTail.length : ℚ) ≥ 7/10))

/-- The loop of lines 150-162: i runs from 1 to maxCheck, best_match_length
keeps the last (hence largest) accepted candidate, 0 when none matched. -/
def bestOverlapMatch (prevWords currWords : List String) (maxCheck : Nat) : Nat :=
  (List.range' 1 maxCheck).foldl
    (fun best i => if overlapMatchAt prevWords currWords i then i else best) 0

/-- Embedding of ChunkTranscriber.remove_overlap_text (lines 116-175).
The try/except at lines 132-175 is vacuous in the embedding (no operation
raises), so only the try body is modelled. -/
def remove_overlap_text (previousText currentText : String) (overlapDuration : ℚ) : String :=
  if previousText = "" ∨ currentText = "" ∨ overlapDuration ≤ 0 then currentText
  else
    let prevWords := pyWords (pyStrip previousText)
    let currWords := pyWords (pyStrip currentText)
    if prevWords.length < 5 ∨ currWords.length < 5 then currentText
    else
      let estimatedOverlapWords := pyInt (overlapDuration * (5/2 : ℚ))
      if estimatedOverlapWords ≤ 0 then currentText
      else
        let maxCheck := min (estimatedOverlapWords.toNat + 5)
          (min (prevWords.length / 2) (currWords.length / 2))
        let best := bestOverlapMatch prevWords currWords maxCheck
        if 0 < best then pyStrip (joinWords (currWords.drop best))
        else currentText

/-! ## Transcription invoker (src/core/chunk_transcription.py lines 19-114) -/

/-- Behaviour of the worker thread body transcribe_worker (lines 36-41):
the underlying transcribe_audio call either raises or finishes with a text
(None modelled as Option.none). -/
inductive WorkerResult where
  | raises : WorkerResult
  | finishes : Option String → WorkerResult
deriving DecidableEq

/-- Abstract worker: how long the underlying transcription call runs and
what it does when it returns. -/
structure TranscribeWorker where
  runtime : ℚ
  result : WorkerResult

/-- Embedding of transcribe_audio_with_timeout (lines 19-59). The call
thread.join(timeout=timeout) leaves the thread alive exactly when its
runtime exceeds the timeout; the function then returns the distinguished
timed-out triple without inspecting the worker's eventual result. -/
def transcribe_audio_with_timeout (worker : TranscribeWorker) (timeout : ℚ) :
    Bool × Option String × Bool :=
  if timeout < worker.runtime then (false, none, true)
  else
    match worker.result with
    | .raises => (false, none, false)
    | .finishes t => (true, t, false)

/-- Time the caller spends blocked in thread.join(timeout=timeout) (line 48):
the worker's runtime, capped by the timeout. -/
def joinWaitTime (worker : TranscribeWorker) (timeout : ℚ) : ℚ :=
  pyMin worker.runtime timeout

/-- Chunk statuses of the AudioChunk model (src/core/models.py lines 94-99). -/
inductive ChunkStatus where
  | pending | processing | completed | failed
deriving DecidableEq

/-- Python truthiness of an optional text (None and "" are falsy). -/
def textTruthy (t : Option String) : Bool := decide (t.getD "" ≠ "")

/-- Outcome of ChunkTranscriber.transcribe_chunk on a chunk record. -/
structure ChunkTranscribeOutcome where
  status : ChunkStatus
  transcriptText : Option String
  errorMessage : Option String
  progress : Option Nat
  returnValue : Bool

/-- Embedding of ChunkTranscriber.transcribe_chunk (lines 70-114): invokes
transcribe_audio_with_timeout with the literal keyword timeout=90 (line 90)
and maps the resulting triple onto the chunk's status fields. -/
def transcribe_chunk (worker : TranscribeWorker) : ChunkTranscribeOutcome :=
  let r := transcribe_audio_with_timeout worker 90
  if r.1 && textTruthy r.2.1 then
    { status := .completed, transcriptText := r.2.1, errorMessage := none
      progress := some 100, returnValue := true }
  else if r.2.2 then
    { status := .failed, transcriptText := none
      errorMessage := some "Transcription timed out after 180 seconds"
      progress := none, returnValue := false }
  else
    { status := .failed, transcriptText := none
      errorMessage := some "No transcription text generated or error occurred"
      progress := none, returnValue := false }


/-! ## Scheduler termination predicate
    (src/core/progressive_transcription.py lines 403-447) -/

/-- State read by _should_finish: the chunking_complete flag, the statuses
of the meeting's chunk rows, the in-memory active_threads map size, and
expected_chunk_count (None until set). -/
structure SchedulerState where
  chunkingComplete : Bool
  chunkStatuses : List ChunkStatus
  activeThreadCount : Nat
  expectedChunkCount : Option Nat

/-- Embedding of ProgressiveTranscriber._should_finish (lines 403-447).
The guard at lines 427-432 requires not chunking_complete, which is
unreachable after the early return at lines 411-413; it is kept verbatim. -/
def shouldFinish (s : SchedulerState) : Bool :=
  if !s.chunkingComplete then false
  else
    let pendingChunks := s.chunkStatuses.countP (· == .pending)
    let totalChunks := s.chunkStatuses.length
    let completedChunks := s.chunkStatuses.countP (· == .completed)
    let failedChunks := s.chunkStatuses.countP (· == .failed)
    let processedChunks := completedChunks + failedChunks
    if s.expectedChunkCount.getD 0 ≠ 0 ∧ totalChunks < s.expectedChunkCount.getD 0 ∧
        !s.chunkingComplete then
      false
    else
      pendingChunks == 0 && s.activeThreadCount == 0 && decide (processedChunks ≥ totalChunks)

/-- A chunk status is terminal when it is completed or failed. -/
def isTerminal (st : ChunkStatus) : Bool := st == .completed || st == .failed

/-! ## Watchdog retry policy
    (src/core/progressive_transcription.py lines 197-283, 68-71) -/

/-- Default maxRetries (line 69: self.max_retries = 1). -/
def defaultMaxRetries : Nat := 1

/-- Default threadTimeout in seconds (line 68: self.thread_timeout = 320). -/
def defaultThreadTimeout : Nat := 320

/-- Per-chunk state acted on by the watchdog: the retry_counts entry, the
chunk row's status and error_message, and whether the chunk currently sits
in the transcription queue. -/
structure RetryChunkState where
  retryCount : Nat
  status : ChunkStatus
  errorMessage : Option String
  inQueue : Bool
deriving DecidableEq

/-- Embedding of the per-stuck-chunk tail of _check_stuck_threads
(lines 252-283): below max_retries the counter is bumped, the chunk is
reset to pending with an annotated error and re-enqueued; otherwise it is
marked failed with a timeout error and the queue is not touched. -/
def watchdogHandleStuck (maxRetries threadTimeout : Nat) (c : RetryChunkState) :
    RetryChunkState :=
  if c.retryCount < maxRetries then
    { retryCount := c.retryCount + 1
      status := .pending
      errorMessage := some ("Retry " ++ toString (c.retryCount + 1) ++ " after timeout")
      inQueue := true }
  else
    { c with
      status := .failed
      errorMessage := some ("Transcription timeout after " ++ toString threadTimeout ++
        "s (max retries exceeded)") }

/-- One attempt of a perpetually stuck chunk: it is dequeued and marked
processing by transcribe_chunk (chunk_transcription.py line 84), the worker
never returns, and the watchdog then handles it as stuck. -/
def stuckAttempt (maxRetries threadTimeout : Nat) (c : RetryChunkState) : RetryChunkState :=
  watchdogHandleStuck maxRetries threadTimeout { c with status := .processing, inQueue := false }

/-- State of a perpetually stuck chunk after n attempts, starting from a
fresh pending chunk sitting in the queue. -/
def stuckRun (maxRetries threadTimeout : Nat) : Nat → RetryChunkState
  | 0 => { retryCount := 0, status := .pending, errorMessage := none, inQueue := true }
  | n + 1 => stuckAttempt maxRetries threadTimeout (stuckRun maxRetries threadTimeout n)

/-! ## Segmenter (src/core/audio_chunking.py lines 31-49, 186-295) -/

/-- Configuration loaded in AudioChunker.__init__ (lines 40-45). -/
structure ChunkerConfig where
  chunkDuration : ℚ
  overlapDuration : ℚ
  maxChunkDuration : ℚ
  minChunkDuration : ℚ
  maxChunks : Nat
  maxDuration : ℚ

/-- Defaults of lines 40-45: 30s windows, 5s overlap, 60s max, 10s min,
150 chunks, 7200s total. -/
def defaultChunkerConfig : ChunkerConfig :=
  { chunkDuration := 30, overlapDuration := 5, maxChunkDuration := 60
    minChunkDuration := 10, maxChunks := 150, maxDuration := 7200 }

/-- Extend the end of the last window in a list (chunks[-1] assignment at
line 276). -/
def setLastEnd (l : List (ℚ × ℚ)) (v : ℚ) : List (ℚ × ℚ) :=
  match l with
  | [] => []
  | [w] => [(w.1, v)]
  | w :: rest => w :: setLastEnd rest v

/-- The while loop of create_time_based_chunks (lines 265-277): emit
windows of chunkDuration stepping by chunkDuration - overlapDuration,
stop at maxChunks, and absorb a too-small final remainder into the last
window. Every iteration appends exactly one window, so the guard
chunks.length < maxChunks fails after at most maxChunks iterations; the
structural fuel below starts at maxChunks (see create_time_based_chunks)
and therefore runs out only when the guard is false anyway, making this
equal to the unbounded while loop. -/
def timeLoop (cfg : ChunkerConfig) (audioDuration : ℚ) :
    Nat → List (ℚ × ℚ) → ℚ → List (ℚ × ℚ)
  | 0, chunks, _ => chunks
  | fuel + 1, chunks, currentStart =>
    if currentStart < audioDuration ∧ chunks.length < cfg.maxChunks then
      let chunkEnd := pyMin (currentStart + cfg.chunkDuration) audioDuration
      let chunks' := chunks ++ [(currentStart, chunkEnd)]
      let nextStart := currentStart + cfg.chunkDuration - cfg.overlapDuration
      if audioDuration - nextStart < cfg.minChunkDuration then
        setLastEnd chunks' audioDuration
      else
        timeLoop cfg audioDuration fuel chunks' nextStart
    else chunks

/-- Embedding of AudioChunker.create_time_based_chunks (lines 246-295),
with audioDuration standing for get_audio_duration(audio_path).
The source lines after the loop do not affect the returned list: the
clamp audio_duration = min(audio_duration, max_duration) at line 288 runs
only after the list is complete and its result is unused, and line 282 is
a bare break outside any loop - a Python SyntaxError in the source file. -/
def create_time_based_chunks (cfg : ChunkerConfig) (audioDuration : ℚ) : List (ℚ × ℚ) :=
  if audioDuration ≤ cfg.chunkDuration then [(0, audioDuration)]
  else timeLoop cfg audioDuration cfg.maxChunks [] 0

/-- The except arm of create_time_based_chunks (lines 293-295): a single
fixed window of length chunkDuration starting at 0. -/
def create_time_based_chunks_onFailure (cfg : ChunkerConfig) : List (ℚ × ℚ) :=
  [(0, cfg.chunkDuration)]

/-- Python truthiness of an optional speech-segment end value: None and
0.0 are falsy (the end if end else ... expressions at lines 217 and 224). -/
def segEndTruthy (e : Option ℚ) : Bool :=
  match e with
  | none => false
  | some x => decide (x ≠ 0)

/-- The for loop of create_vad_aware_chunks (lines 211-232) as structural
recursion over the speech segments; the break at line 215 is the early
return. State: accumulated windows, current window start, accumulated
duration of the current window. -/
def vadLoop (cfg : ChunkerConfig) (segs : List (ℚ × Option ℚ)) (chunks : List (ℚ × ℚ))
    (currentStart currentDur : ℚ) : List (ℚ × ℚ) × ℚ × ℚ :=
  match segs with
  | [] => (chunks, currentStart, currentDur)
  | (s, e) :: rest =>
    if chunks.length ≥ cfg.maxChunks then (chunks, currentStart, currentDur)
    else
      let segDur := if segEndTruthy e then e.getD 0 - s else cfg.chunkDuration
      if currentDur + segDur > cfg.chunkDuration ∧ currentDur ≥ cfg.minChunkDuration then
        let chunkEnd := pyMin (s + cfg.overlapDuration)
          (if segEndTruthy e then e.getD 0 else s + segDur)
        vadLoop cfg rest (chunks ++ [(currentStart, chunkEnd)])
          (pyMax 0 (s - cfg.overlapDuration)) (segDur + cfg.overlapDuration)
      else
        vadLoop cfg rest chunks currentStart (currentDur + segDur)

/-- Embedding of AudioChunker.create_vad_aware_chunks (lines 186-244),
with speechSegments standing for detect_speech_segments(audio_path) and
audioDuration for get_audio_duration(audio_path). An empty or singleton
segment list falls back to time-based chunking (lines 203-205); after the
loop a final window is appended whenever the accumulated duration reaches
minChunkDuration (lines 235-237), with no cap check. -/
def create_vad_aware_chunks (cfg : ChunkerConfig) (speechSegments : List (ℚ × Option ℚ))
    (audioDuration : ℚ) : List (ℚ × ℚ) :=
  if speechSegments.length ≤ 1 then create_time_based_chunks cfg audioDuration
  else
    let r := vadLoop cfg speechSegments [] 0 0
    if r.2.2 ≥ cfg.minChunkDuration then r.1 ++ [(r.2.1, audioDuration)]
    else r.1

/-- The except arm of create_vad_aware_chunks (lines 242-244) when the
time-based fallback itself also raises: the value of the inner except arm
(lines 293-295) is returned. -/
def create_vad_aware_chunks_onFailure (cfg : ChunkerConfig) : List (ℚ × ℚ) :=
  create_time_based_chunks_onFailure cfg

/-! ## Reassembler (src/core/chunk_transcription.py lines 177-221) -/

/-- An AudioChunk row as read by reassemble_transcript. transcript_text is
a non-null TextField (models.py line 108), so it is a plain String. -/
structure ChunkRec where
  chunkIndex : Nat
  startTime : ℚ
  endTime : ℚ
  status : ChunkStatus
  transcriptText : String

/-- Insertion into a list sorted by chunk_index. -/
def insertByIndex (c : ChunkRec) : List ChunkRec → List ChunkRec
  | [] => [c]
  | d :: ds => if c.chunkIndex ≤ d.chunkIndex then c :: d :: ds else d :: insertByIndex c ds

/-- The order_by chunk_index of the queryset at line 188 (chunk_index is
unique per meeting, models.py line 118). -/
def orderByIndex : List ChunkRec → List ChunkRec
  | [] => []
  | c :: cs => insertByIndex c (orderByIndex cs)

/-- Loop body state of reassemble_transcript: transcript_parts and
previous_text. -/
def reassembleStep (completed : List ChunkRec) (acc : List String × String)
    (chunk : ChunkRec) : List String × String :=
  if chunk.transcriptText = "" then acc
  else
    let currentText := pyStrip chunk.transcriptText
    let currentText :=
      if acc.2 ≠ "" ∧ 0 < chunk.chunkIndex then
        match completed.find? (fun c => c.chunkIndex == chunk.chunkIndex - 1) with
        | some prevChunk =>
          remove_overlap_text acc.2 currentText (pyMax 0 (prevChunk.endTime - chunk.startTime))
        | none => currentText
      else currentText
    if currentText ≠ "" then (acc.1 ++ [currentText], currentText) else acc

/-- Embedding of ChunkTranscriber.reassemble_transcript (lines 177-221):
filter the meeting's chunks to status completed, order by chunk_index,
trim each chunk's text against the running previous text using the overlap
with the chunk of the preceding index, and join with single spaces. -/
def reassemble_transcript (allChunks : List ChunkRec) : String :=
  let completed := orderByIndex (allChunks.filter (fun c => c.status == .completed))
  if completed.isEmpty then ""
  else joinWords (completed.foldl (reassembleStep completed) ([], "")).1

/-! ## Claim-model definitions (used to compare spec text against the code) -/

/-- Python 3 round() on a rational: round half to even. -/
def pyRound (q : ℚ) : ℤ :=
  if q - q.floor < 1/2 then q.floor
  else if 1/2 < q - q.floor then q.floor + 1
  else if q.floor % 2 = 0 then q.floor else q.floor + 1

/-- Modelled from the claim C6 wording: unchanged when either text has fewer
than 5 words or overlapSeconds ≤ 0; estimate round(overlapSeconds * 2.5);
candidates i from 1 to min(estimate + 5, prev half, curr half); drop the
largest accepted i leading words. -/
def removeOverlapClaimC6 (previousText currentText : String) (overlapDuration : ℚ) : String :=
  let prevWords := pyWords previousText
  let currWords := pyWords currentText
  if prevWords.length < 5 ∨ currWords.length < 5 ∨ overlapDuration ≤ 0 then currentText
  else
    let estimatedWords := pyRound (overlapDuration * (5/2 : ℚ))
    let maxCheck := min (estimatedWords.toNat + 5)
      (min (prevWords.length / 2) (currWords.length / 2))
    let best := bestOverlapMatch prevWords currWords maxCheck
    if 0 < best then joinWords (currWords.drop best) else currentText

/-- Modelled from the amended claim C6: as the original claim, but the
estimate is floor(overlapSeconds * 2.5) (Python int() truncation), the text
is returned unchanged additionally when that estimate is ≤ 0, and the
surviving words are re-joined with single spaces. -/
def removeOverlapAmendedC6 (previousText currentText : String) (overlapDuration : ℚ) : String :=
  let prevWords := pyWords previousText
  let currWords := pyWords currentText
  if prevWords.length < 5 ∨ currWords.length < 5 ∨ overlapDuration ≤ 0 ∨
      (overlapDuration * (5/2 : ℚ)).floor ≤ 0 then currentText
  else
    let maxCheck := min ((overlapDuration * (5/2 : ℚ)).floor.toNat + 5)
      (min (prevWords.length / 2) (currWords.length / 2))
    let best := bestOverlapMatch prevWords currWords maxCheck
    if 0 < best then joinWords (currWords.drop best) else currentText

/-- Well-formed character-level word lists: nonempty and whitespace-free. -/
def goodCharWords (ws : List (List Char)) : Prop :=
  ∀ w ∈ ws, w ≠ [] ∧ ∀ c ∈ w, isWS c = false

/-- Well-formed String word lists: nonempty and whitespace-free. -/
def goodWords (ws : List String) : Prop :=
  ∀ w ∈ ws, w ≠ "" ∧ ∀ c ∈ w.data, isWS c = false

/-! ## Properties of the string primitives -/

theorem takeWhile_eq_self_of_all {α : Type} (p : α → Bool) (l : List α)
    (h : ∀ c ∈ l, p c = true) : l.takeWhile p = l := by
  induction l with
  | nil => rfl
  | cons a l ih =>
    have ha := h a (List.mem_cons_self a l)
    simp [List.takeWhile_cons, ha, ih fun c hc => h c (List.mem_cons_of_mem a hc)]

theorem takeWhile_append_stop {α : Type} (p : α → Bool) (l : List α) (x : α) (t : List α)
    (hl : ∀ c ∈ l, p c = true) (hx : p x = false) :
    (l ++ x :: t).takeWhile p = l := by
  induction l with
  | nil => simp [List.takeWhile_cons, hx]
  | cons a l ih =>
    have ha := hl a (List.mem_cons_self a l)
    simp [List.takeWhile_cons, ha, ih fun c hc => hl c (List.mem_cons_of_mem a hc)]

theorem dropWhile_append_stop {α : Type} (p : α → Bool) (l : List α) (x : α) (t : List α)
    (hl : ∀ c ∈ l, p c = true) (hx : p x = false) :
    (l ++ x :: t).dropWhile p = x :: t := by
  induction l with
  | nil => simp [List.dropWhile_cons, hx]
  | cons a l ih =>
    have ha := hl a (List.mem_cons_self a l)
    simp [List.dropWhile_cons, ha, ih fun c hc => hl c (List.mem_cons_of_mem a hc)]

theorem dropWhile_head_false {α : Type} (p : α → Bool) (l : List α) (x : α) (r : List α)
    (h : l.dropWhile p = x :: r) : p x = false := by
  induction l with
  | nil => simp at h
  | cons a l ih =>
    rw [List.dropWhile_cons] at h
    cases ha : p a with
    | true => rw [ha] at h; simp at h; exact ih h
    | false =>
      rw [ha] at h
      simp at h
      rw [← h.1]
      exact ha

theorem words_allWS (l : List Char) (h : ∀ c ∈ l, isWS c = true) : wordsRec l = [] := by
  induction l with
  | nil => simp [wordsRec]
  | cons a l ih =>
    have ha := h a (List.mem_cons_self a l)
    rw [wordsRec]
    simp [ha, ih fun c hc => h c (List.mem_cons_of_mem a hc)]

theorem mem_words_good (l : List Char) : ∀ w ∈ wordsRec l, w ≠ [] ∧ ∀ c ∈ w, isWS c = false := by
  induction l using wordsRec.induct with
  | case1 => simp [wordsRec]
  | case2 c cs hc ih =>
    rw [wordsRec]
    simp only [if_pos hc]
    exact ih
  | case3 c cs hc ih =>
    rw [wordsRec]
    simp only [if_neg hc]
    intro w hw
    rw [List.mem_cons] at hw
    rcases hw with hw | hw
    · subst hw
      refine ⟨by simp, ?_⟩
      intro x hx
      rw [List.mem_cons] at hx
      rcases hx with hx | hx
      · subst hx; simpa using hc
      · have := List.mem_takeWhile_imp hx
        simpa [nonWS] using this
    · exact ih w hw

theorem words_append_allWS (l : List Char) :
    ∀ t : List Char, (∀ c ∈ t, isWS c = true) → wordsRec (l ++ t) = wordsRec l := by
  induction l using wordsRec.induct with
  | case1 =>
    intro t ht
    simpa [wordsRec] using words_allWS t ht
  | case2 c cs hc ih =>
    intro t ht
    rw [List.cons_append, wordsRec, if_pos hc, ih t ht, wordsRec, if_pos hc]
  | case3 c cs hc ih =>
    intro t ht
    rw [List.cons_append, wordsRec, if_neg hc, wordsRec, if_neg hc]
    cases hd : cs.dropWhile nonWS with
    | nil =>
      have hall : ∀ x ∈ cs, nonWS x = true := List.dropWhile_eq_nil_iff.mp hd
      have htw : cs.takeWhile nonWS = cs := takeWhile_eq_self_of_all nonWS cs hall
      cases t with
      | nil => rw [List.append_nil, hd]
      | cons d t2 =>
        have hdw : nonWS d = false := by
          have := ht d (List.mem_cons_self d t2)
          simp [nonWS, this]
        rw [takeWhile_append_stop nonWS cs d t2 hall hdw,
            dropWhile_append_stop nonWS cs d t2 hall hdw, htw]
        rw [words_allWS (d :: t2) ht, words_allWS [] (by simp)]
    | cons x r =>
      have hx : nonWS x = false := dropWhile_head_false nonWS cs x r hd
      have hsplit : cs.takeWhile nonWS ++ x :: r = cs := by
        conv_rhs => rw [← List.takeWhile_append_dropWhile nonWS cs]
        rw [hd]
      have hall : ∀ c ∈ cs.takeWhile nonWS, nonWS c = true :=
        fun c hcm => List.mem_takeWhile_imp hcm
      have h1 : (cs ++ t).takeWhile nonWS = cs.takeWhile nonWS := by
        rw [← hsplit, List.append_assoc, List.cons_append]
        rw [takeWhile_append_stop nonWS _ x (r ++ t) hall hx,
            takeWhile_append_stop nonWS _ x r hall hx]
      have h2 : (cs ++ t).dropWhile nonWS = (x :: r) ++ t := by
        rw [← hsplit, List.append_assoc, List.cons_append]
        rw [dropWhile_append_stop nonWS _ x (r ++ t) hall hx]
      have ih2 := ih t ht
      rw [hd] at ih2
      rw [h1, h2, ih2]

theorem words_dropWhileWS (l : List Char) : wordsRec (l.dropWhile isWS) = wordsRec l := by
  induction l with
  | nil => rfl
  | cons a l ih =>
    cases ha : isWS a with
    | true =>
      rw [List.dropWhile_cons, if_pos (by rw [ha]), ih, wordsRec, if_pos ha]
    | false =>
      rw [List.dropWhile_cons, if_neg (by rw [ha]; simp)]

theorem words_stripChars (l : List Char) : wordsRec (stripChars l) = wordsRec l := by
  unfold stripChars
  have key : ∀ m : List Char, wordsRec ((m.reverse.dropWhile isWS).reverse) = wordsRec m := by
    intro m
    have hsplit : m = (m.reverse.dropWhile isWS).reverse ++ (m.reverse.takeWhile isWS).reverse := by
      conv_lhs => rw [← List.reverse_reverse m,
        ← List.takeWhile_append_dropWhile isWS m.reverse]
      rw [List.reverse_append]
    have hall : ∀ c ∈ (m.reverse.takeWhile isWS).reverse, isWS c = true := by
      intro c hcm
      rw [List.mem_reverse] at hcm
      exact List.mem_takeWhile_imp hcm
    conv_rhs => rw [hsplit, words_append_allWS _ _ hall]
  rw [key, words_dropWhileWS]

/-- Basic equation: the word splitter on the empty list. -/
theorem words_nil : wordsRec [] = [] := by rw [wordsRec]

/-- Splitting the single-space join of well-formed words recovers them. -/
theorem words_joinSp (ws : List (List Char)) (h : goodCharWords ws) :
    wordsRec (joinSp ws) = ws := by
  induction ws with
  | nil => simp [joinSp, words_nil]
  | cons w rest ih =>
    rcases h w (List.mem_cons_self w rest) with ⟨hne, hnw⟩
    obtain ⟨c, w', rfl⟩ : ∃ c w', w = c :: w' := by
      cases w with
      | nil => exact absurd rfl hne
      | cons c w' => exact ⟨c, w', rfl⟩
    have hc : isWS c = false := hnw c (List.mem_cons_self c w')
    have hw' : ∀ x ∈ w', nonWS x = true := fun x hx => by
      simp [nonWS, hnw x (List.mem_cons_of_mem c hx)]
    cases rest with
    | nil =>
      show wordsRec (c :: w') = [c :: w']
      rw [wordsRec, if_neg (by simp [hc])]
      rw [takeWhile_eq_self_of_all nonWS w' hw',
          List.dropWhile_eq_nil_iff.mpr hw', words_nil]
    | cons w2 rest2 =>
      show wordsRec ((c :: w') ++ ' ' :: joinSp (w2 :: rest2)) = (c :: w') :: w2 :: rest2
      have hsp : nonWS ' ' = false := by rfl
      rw [List.cons_append, wordsRec, if_neg (by simp [hc])]
      rw [takeWhile_append_stop nonWS w' ' ' _ hw' hsp,
          dropWhile_append_stop nonWS w' ' ' _ hw' hsp]
      rw [wordsRec, if_pos (by rfl)]
      rw [ih fun v hv => h v (List.mem_cons_of_mem _ hv)]

/-- The join of well-formed words starts with a non-whitespace character. -/
theorem joinSp_cons_head (ws : List (List Char)) (h : goodCharWords ws) (hne : ws ≠ []) :
    ∃ c t, joinSp ws = c :: t ∧ isWS c = false := by
  cases ws with
  | nil => exact absurd rfl hne
  | cons w rest =>
    rcases h w (List.mem_cons_self w rest) with ⟨hwne, hnw⟩
    obtain ⟨c, w', rfl⟩ : ∃ c w', w = c :: w' := by
      cases w with
      | nil => exact absurd rfl hwne
      | cons c w' => exact ⟨c, w', rfl⟩
    have hc : isWS c = false := hnw c (List.mem_cons_self c w')
    cases rest with
    | nil => exact ⟨c, w', rfl, hc⟩
    | cons w2 rest2 =>
      exact ⟨c, w' ++ ' ' :: joinSp (w2 :: rest2), by rw [show joinSp ((c :: w') :: w2 :: rest2) =
        (c :: w') ++ ' ' :: joinSp (w2 :: rest2) from rfl, List.cons_append], hc⟩

/-- The join of well-formed words ends with a non-whitespace character. -/
theorem joinSp_concat_last (ws : List (List Char)) (h : goodCharWords ws) (hne : ws ≠ []) :
    ∃ m d, joinSp ws = m ++ [d] ∧ isWS d = false := by
  induction ws with
  | nil => exact absurd rfl hne
  | cons w rest ih =>
    rcases h w (List.mem_cons_self w rest) with ⟨hwne, hnw⟩
    cases rest with
    | nil =>
      rcases List.eq_nil_or_concat w with hw | ⟨m, d, hmd⟩
      · exact absurd hw hwne
      · exact ⟨m, d, by rw [show joinSp [w] = w from rfl, hmd, List.concat_eq_append],
          hnw d (by rw [hmd]; simp)⟩
    | cons w2 rest2 =>
      obtain ⟨m, d, hm, hd⟩ := ih (fun v hv => h v (List.mem_cons_of_mem _ hv)) (by simp)
      refine ⟨w ++ ' ' :: m, d, ?_, hd⟩
      show w ++ ' ' :: joinSp (w2 :: rest2) = (w ++ ' ' :: m) ++ [d]
      rw [hm]
      simp

/-- Python strip is the identity on the join of well-formed words. -/
theorem stripChars_joinSp (ws : List (List Char)) (h : goodCharWords ws) (hne : ws ≠ []) :
    stripChars (joinSp ws) = joinSp ws := by
  obtain ⟨c, t, hct, hc⟩ := joinSp_cons_head ws h hne
  obtain ⟨m, d, hmd, hd⟩ := joinSp_concat_last ws h hne
  unfold stripChars
  rw [hct, List.dropWhile_cons, if_neg (by simp [hc]), ← hct, hmd]
  rw [List.reverse_append, List.reverse_singleton, List.singleton_append]
  rw [List.dropWhile_cons, if_neg (by simp [hd])]
  rw [List.reverse_cons, List.reverse_reverse]

/-- A String whose character list is empty is the empty string. -/
theorem string_data_eq_nil (s : String) (h : s.data = []) : s = "" := by
  cases s with
  | mk d =>
    simp only [String.data] at h
    subst h
    rfl

/-- The one-pass splitter agrees with the recursion-theoretic splitter. -/
theorem splitGo_spec : ∀ (n : Nat) (l : List Char), l.length ≤ n →
    splitGo l [] = wordsRec l ∧
    ∀ acc, acc ≠ [] →
      splitGo l acc = (acc.reverse ++ l.takeWhile nonWS) :: wordsRec (l.dropWhile nonWS) := by
  intro n
  induction n with
  | zero =>
    intro l hl
    have hl0 : l = [] := List.length_eq_zero.mp (Nat.le_zero.mp hl)
    subst hl0
    refine ⟨by rw [words_nil]; rfl, ?_⟩
    intro acc hacc
    have h1 : splitGo [] acc = [acc.reverse] := by
      simp [splitGo, List.isEmpty_iff, hacc]
    rw [h1, List.takeWhile_nil, List.dropWhile_nil, words_nil]
    simp
  | succ n ih =>
    intro l hl
    cases l with
    | nil =>
      refine ⟨by rw [words_nil]; rfl, ?_⟩
      intro acc hacc
      have h1 : splitGo [] acc = [acc.reverse] := by
        simp [splitGo, List.isEmpty_iff, hacc]
      rw [h1, List.takeWhile_nil, List.dropWhile_nil, words_nil]
      simp
    | cons c cs =>
      have hcs : cs.length ≤ n := by
        simp only [List.length_cons] at hl
        omega
      obtain ⟨ih1, ih2⟩ := ih cs hcs
      constructor
      · cases hc : isWS c with
        | true =>
          have h1 : splitGo (c :: cs) [] = splitGo cs [] := by
            simp [splitGo, hc]
          rw [h1, ih1, wordsRec, if_pos hc]
        | false =>
          have h1 : splitGo (c :: cs) [] = splitGo cs [c] := by
            simp [splitGo, hc]
          rw [h1, ih2 [c] (by simp), wordsRec, if_neg (by simp [hc])]
          simp
      · intro acc hacc
        cases hc : isWS c with
        | true =>
          have h1 : splitGo (c :: cs) acc = acc.reverse :: splitGo cs [] := by
            simp [splitGo, hc, List.isEmpty_iff, hacc]
          rw [h1, ih1]
          rw [List.takeWhile_cons, List.dropWhile_cons,
            if_neg (by simp [nonWS, hc]), if_neg (by simp [nonWS, hc])]
          rw [wordsRec, if_pos hc]
          simp
        | false =>
          have h1 : splitGo (c :: cs) acc = splitGo cs (c :: acc) := by
            simp [splitGo, hc]
          rw [h1, ih2 (c :: acc) (by simp)]
          rw [List.takeWhile_cons, List.dropWhile_cons,
            if_pos (by simp [nonWS, hc]), if_pos (by simp [nonWS, hc])]
          simp

/-- The kernel-evaluable splitter equals the recursion-theoretic one. -/
theorem words_eq_wordsRec (l : List Char) : words l = wordsRec l :=
  (splitGo_spec l.length l (le_refl _)).1

/-- Stripping does not change the outcome of Python split. -/
theorem pyWords_pyStrip (s : String) : pyWords (pyStrip s) = pyWords s := by
  show (words (stripChars s.data)).map String.mk = (words s.data).map String.mk
  rw [words_eq_wordsRec, words_eq_wordsRec, words_stripChars]

/-- The pieces returned by Python split are nonempty and whitespace-free. -/
theorem pyWords_good (s : String) : goodWords (pyWords s) := by
  intro w hw
  rw [pyWords, words_eq_wordsRec, List.mem_map] at hw
  obtain ⟨wc, hwc, rfl⟩ := hw
  rcases mem_words_good s.data wc hwc with ⟨hne, hnw⟩
  exact ⟨fun hcontra => hne (by simpa using congrArg String.data hcontra), hnw⟩

/-- Transport of well-formedness to the character level. -/
theorem goodWords_map_data (ws : List String) (h : goodWords ws) :
    goodCharWords (ws.map String.data) := by
  intro w hw
  rw [List.mem_map] at hw
  obtain ⟨s, hs, rfl⟩ := hw
  rcases h s hs with ⟨hne, hnw⟩
  exact ⟨fun hc => hne (string_data_eq_nil s hc), hnw⟩

/-- Python strip is the identity on a single-space join of well-formed words. -/
theorem pyStrip_joinWords (ws : List String) (h : goodWords ws) (hne : ws ≠ []) :
    pyStrip (joinWords ws) = joinWords ws := by
  show String.mk (stripChars (joinSp (ws.map String.data))) =
    String.mk (joinSp (ws.map String.data))
  rw [stripChars_joinSp _ (goodWords_map_data ws h) (by simpa using hne)]

/-- Python split recovers the words from their single-space join. -/
theorem pyWords_joinWords (ws : List String) (h : goodWords ws) :
    pyWords (joinWords ws) = ws := by
  show (words (joinSp (ws.map String.data))).map String.mk = ws
  rw [words_eq_wordsRec, words_joinSp _ (goodWords_map_data ws h), List.map_map]
  have hid : (String.mk ∘ String.data) = id := funext fun s => rfl
  rw [hid, List.map_id]

/-- The best-match loop never returns more than the search bound. -/
theorem bestOverlapMatch_le (p c : List String) (m : Nat) : bestOverlapMatch p c m ≤ m := by
  unfold bestOverlapMatch
  have key : ∀ (l : List Nat) (acc : Nat), acc ≤ m → (∀ x ∈ l, x ≤ m) →
      (l.foldl (fun best i => if overlapMatchAt p c i then i else best) acc) ≤ m := by
    intro l
    induction l with
    | nil => intro acc h _; simpa using h
    | cons a l ih =>
      intro acc hacc hl
      rw [List.foldl_cons]
      apply ih
      · by_cases hf : overlapMatchAt p c a
        · rw [if_pos hf]; exact hl a (List.mem_cons_self a l)
        · rw [if_neg hf]; exact hacc
      · exact fun x hx => hl x (List.mem_cons_of_mem a hx)
  apply key
  · exact Nat.zero_le m
  · intro x hx
    rw [List.mem_range'_1] at hx
    omega

/-- C10: the string returned by remove_overlap_text splits into a suffix of
the current text's word list, obtained by dropping at most half of its
leading words; no word is altered, reordered or appended. -/
theorem c10_overlap_trim_word_suffix (previousText currentText : String)
    (overlapDuration : ℚ) :
    ∃ k, k ≤ (pyWords currentText).length / 2 ∧
      pyWords (remove_overlap_text previousText currentText overlapDuration) =
        (pyWords currentText).drop k := by
  simp only [remove_overlap_text]
  split_ifs with h1 h2 h3 h4
  · exact ⟨0, Nat.zero_le _, by simp⟩
  · exact ⟨0, Nat.zero_le _, by simp⟩
  · exact ⟨0, Nat.zero_le _, by simp⟩
  · refine ⟨bestOverlapMatch (pyWords (pyStrip previousText)) (pyWords (pyStrip currentText))
      (min ((pyInt (overlapDuration * (5/2 : ℚ))).toNat + 5)
        (min ((pyWords (pyStrip previousText)).length / 2)
          ((pyWords (pyStrip currentText)).length / 2))), ?_, ?_⟩
    · calc bestOverlapMatch _ _ _ ≤ _ := bestOverlapMatch_le _ _ _
        _ ≤ (pyWords (pyStrip currentText)).length / 2 :=
          le_trans (min_le_right _ _) (min_le_right _ _)
        _ = (pyWords currentText).length / 2 := by rw [pyWords_pyStrip]
    · have hgood : goodWords ((pyWords (pyStrip currentText)).drop
          (bestOverlapMatch (pyWords (pyStrip previousText)) (pyWords (pyStrip currentText))
            (min ((pyInt (overlapDuration * (5/2 : ℚ))).toNat + 5)
              (min ((pyWords (pyStrip previousText)).length / 2)
                ((pyWords (pyStrip currentText)).length / 2))))) :=
        fun w hw => pyWords_good (pyStrip currentText) w (List.mem_of_mem_drop hw)
      have hlen5 : ¬ ((pyWords (pyStrip previousText)).length < 5 ∨
          (pyWords (pyStrip currentText)).length < 5) := h2
      push_neg at hlen5
      have hne : ((pyWords (pyStrip currentText)).drop
          (bestOverlapMatch (pyWords (pyStrip previousText)) (pyWords (pyStrip currentText))
            (min ((pyInt (overlapDuration * (5/2 : ℚ))).toNat + 5)
              (min ((pyWords (pyStrip previousText)).length / 2)
                ((pyWords (pyStrip currentText)).length / 2))))) ≠ [] := by
        have hb := bestOverlapMatch_le (pyWords (pyStrip previousText))
          (pyWords (pyStrip currentText))
          (min ((pyInt (overlapDuration * (5/2 : ℚ))).toNat + 5)
            (min ((pyWords (pyStrip previousText)).length / 2)
              ((pyWords (pyStrip currentText)).length / 2)))
        have hhalf : (min ((pyInt (overlapDuration * (5/2 : ℚ))).toNat + 5)
            (min ((pyWords (pyStrip previousText)).length / 2)
              ((pyWords (pyStrip currentText)).length / 2))) ≤
            (pyWords (pyStrip currentText)).length / 2 :=
          le_trans (min_le_right _ _) (min_le_right _ _)
        intro hcontra
        have := congrArg List.length hcontra
        rw [List.length_drop] at this
        simp only [List.length_nil] at this
        omega
      rw [pyStrip_joinWords _ hgood hne, pyWords_joinWords _ hgood,
        pyWords_pyStrip currentText]
  · exact ⟨0, Nat.zero_le _, by simp⟩

/-! ## Supporting lemmas for the scheduler, watchdog and segmenter claims -/

/-- Counting completed plus failed chunks counts the terminal ones. -/
theorem countP_terminal_sum (l : List ChunkStatus) :
    l.countP (· == .completed) + l.countP (· == .failed) = l.countP isTerminal := by
  induction l with
  | nil => rfl
  | cons a l ih =>
    rw [List.countP_cons, List.countP_cons, List.countP_cons]
    cases a <;> simp [isTerminal] <;> omega

/-- All chunks are terminal exactly when the processed count reaches the
total count. -/
theorem processed_ge_total_iff (l : List ChunkStatus) :
    (l.length ≤ l.countP (· == .completed) + l.countP (· == .failed)) ↔
      ∀ a ∈ l, isTerminal a = true := by
  rw [countP_terminal_sum]
  constructor
  · intro h
    exact List.countP_eq_length.mp (Nat.le_antisymm (List.countP_le_length _) h)
  · intro h
    rw [List.countP_eq_length.mpr h]

/-- setLastEnd preserves the number of windows. -/
theorem setLastEnd_length (v : ℚ) (l : List (ℚ × ℚ)) :
    (setLastEnd l v).length = l.length := by
  induction l with
  | nil => rfl
  | cons w rest ih =>
    cases rest with
    | nil => rfl
    | cons w2 r2 =>
      rw [show setLastEnd (w :: w2 :: r2) v = w :: setLastEnd (w2 :: r2) v from rfl,
        List.length_cons, List.length_cons, ih]

/-- The time-based loop never grows the window list past maxChunks. -/
theorem timeLoop_length (cfg : ChunkerConfig) (d : ℚ) :
    ∀ (fuel : Nat) (chunks : List (ℚ × ℚ)) (cs : ℚ), chunks.length ≤ cfg.maxChunks →
      (timeLoop cfg d fuel chunks cs).length ≤ cfg.maxChunks := by
  intro fuel
  induction fuel with
  | zero => intro chunks cs h; exact h
  | succ fuel ih =>
    intro chunks cs h
    simp only [timeLoop]
    split_ifs with hguard hsmall
    · obtain ⟨-, h2⟩ := hguard
      rw [setLastEnd_length]
      simp only [List.length_append, List.length_cons, List.length_nil]
      omega
    · obtain ⟨-, h2⟩ := hguard
      apply ih
      simp only [List.length_append, List.length_cons, List.length_nil]
      omega
    · exact h

/-- The speech-aware loop never grows the window list past maxChunks. -/
theorem vadLoop_length :
    ∀ (segs : List (ℚ × Option ℚ)) (cfg : ChunkerConfig) (chunks : List (ℚ × ℚ))
      (s0 d0 : ℚ), chunks.length ≤ cfg.maxChunks →
      (vadLoop cfg segs chunks s0 d0).1.length ≤ cfg.maxChunks := by
  intro segs
  induction segs with
  | nil => intro cfg chunks s0 d0 h; exact h
  | cons seg rest ih =>
    intro cfg chunks s0 d0 h
    obtain ⟨s, e⟩ := seg
    simp only [vadLoop]
    split_ifs
    all_goals
      first
        | exact h
        | exact ih cfg chunks s0 _ h
        | (apply ih
           simp only [List.length_append, List.length_cons, List.length_nil]
           omega)

/-- After k attempts with k at most maxRetries, a perpetually stuck chunk is
re-enqueued as pending with retry counter k. -/
theorem stuckRun_le (m tT : Nat) : ∀ k, k ≤ m →
    (stuckRun m tT k).retryCount = k ∧ (stuckRun m tT k).status = .pending ∧
    (stuckRun m tT k).inQueue = true := by
  intro k
  induction k with
  | zero => intro _; exact ⟨rfl, rfl, rfl⟩
  | succ k ih =>
    intro hk
    obtain ⟨h1, _, _⟩ := ih (Nat.le_of_succ_le hk)
    rw [stuckRun, stuckAttempt, watchdogHandleStuck]
    simp only [h1]
    rw [if_pos (Nat.lt_of_succ_le hk)]
    exact ⟨rfl, rfl, rfl⟩

/-! ## Claim theorems -/

/-- C1: the scheduler's termination predicate returns false whenever
chunking has not been marked complete, regardless of queue or in-flight
state, and returns true exactly when simultaneously no chunk is pending,
no worker thread is in flight, and every chunk of the meeting carries a
terminal status (completed or failed). -/
theorem c1_should_finish_characterization (s : SchedulerState) :
    shouldFinish s = (s.chunkingComplete &&
      (s.chunkStatuses.countP (· == .pending) == 0) &&
      (s.activeThreadCount == 0) &&
      s.chunkStatuses.all isTerminal) := by
  cases hcc : s.chunkingComplete with
  | false => simp [shouldFinish, hcc]
  | true =>
    simp only [shouldFinish, hcc, Bool.not_true, Bool.false_eq_true, if_false, Bool.true_and]
    rw [if_neg (by simp)]
    have hkey : decide (s.chunkStatuses.countP (· == .completed) +
        s.chunkStatuses.countP (· == .failed) ≥ s.chunkStatuses.length) =
        s.chunkStatuses.all isTerminal := by
      rw [Bool.eq_iff_iff]
      simp only [decide_eq_true_eq, List.all_eq_true, ge_iff_le]
      exact processed_ge_total_iff s.chunkStatuses
    rw [hkey]

/-- C2: for a chunk the watchdog finds stuck, a retry counter below
maxRetries leads to an incremented counter, status pending with an
annotated error, and a re-enqueue; otherwise the chunk is marked failed
with a timeout error and is not re-enqueued; consequently a perpetually
stuck chunk is attempted exactly maxRetries + 1 times: after each of the
first maxRetries attempts it is back in the queue, and attempt
maxRetries + 1 leaves it permanently failed and out of the queue. -/
theorem c2_watchdog_retry_policy (maxRetries threadTimeout : Nat) :
    (∀ c : RetryChunkState, c.retryCount < maxRetries →
      watchdogHandleStuck maxRetries threadTimeout c =
        { retryCount := c.retryCount + 1, status := .pending,
          errorMessage := some ("Retry " ++ toString (c.retryCount + 1) ++ " after timeout"),
          inQueue := true }) ∧
    (∀ c : RetryChunkState, maxRetries ≤ c.retryCount →
      (watchdogHandleStuck maxRetries threadTimeout c).status = .failed ∧
      (watchdogHandleStuck maxRetries threadTimeout c).errorMessage =
        some ("Transcription timeout after " ++ toString threadTimeout ++
          "s (max retries exceeded)") ∧
      (watchdogHandleStuck maxRetries threadTimeout c).inQueue = c.inQueue) ∧
    (stuckRun maxRetries threadTimeout (maxRetries + 1)).status = .failed ∧
    (stuckRun maxRetries threadTimeout (maxRetries + 1)).inQueue = false ∧
    (∀ k, k ≤ maxRetries → (stuckRun maxRetries threadTimeout k).status ≠ .failed ∧
      (stuckRun maxRetries threadTimeout k).inQueue = true) ∧
    defaultMaxRetries = 1 := by
  refine ⟨?_, ?_, ?_, ?_, ?_, rfl⟩
  · intro c hc
    simp only [watchdogHandleStuck]
    rw [if_pos hc]
  · intro c hc
    simp only [watchdogHandleStuck]
    rw [if_neg (Nat.not_lt.mpr hc)]
    exact ⟨rfl, rfl, rfl⟩
  · obtain ⟨h1, -, -⟩ := stuckRun_le maxRetries threadTimeout maxRetries (le_refl _)
    rw [stuckRun, stuckAttempt]
    simp only [watchdogHandleStuck, h1]
    rw [if_neg (by omega)]
  · obtain ⟨h1, -, -⟩ := stuckRun_le maxRetries threadTimeout maxRetries (le_refl _)
    rw [stuckRun, stuckAttempt]
    simp only [watchdogHandleStuck, h1]
    rw [if_neg (by omega)]
  · intro k hk
    obtain ⟨-, h2, h3⟩ := stuckRun_le maxRetries threadTimeout k hk
    exact ⟨by rw [h2]; intro hcontra; exact ChunkStatus.noConfusion hcontra, h3⟩

/-- C2 witness: with the source defaults maxRetries = 1, threadTimeout =
320, a stuck chunk with no prior retry is reset to pending and re-queued
once, and the perpetually stuck chunk is failed after exactly 2 attempts. -/
theorem c2_watchdog_retry_policy_witness :
    watchdogHandleStuck 1 320 ⟨0, .processing, none, false⟩ =
      ⟨1, .pending, some "Retry 1 after timeout", true⟩ ∧
    (stuckRun 1 320 2).status = .failed ∧
    (stuckRun 1 320 1).status ≠ .failed :=
  ⟨(c2_watchdog_retry_policy 1 320).1 _ (by decide),
   (c2_watchdog_retry_policy 1 320).2.2.1,
   ((c2_watchdog_retry_policy 1 320).2.2.2.2.1 1 (by decide)).1⟩

/-- C3: the invoker waits at most the given timeout; the distinguished
timed-out triple (False, None, True) is returned exactly when the worker
outlives the timeout; (False, None, False) exactly when the worker
finished in time but the underlying call raised; (True, text, False)
exactly when the call completed with text; and the orchestrated chunk
path, which passes timeout=90, marks the chunk failed when the worker
needs more than 90 seconds. -/
theorem c3_invoker_timeout_contract (w : TranscribeWorker) (timeout : ℚ) :
    joinWaitTime w timeout ≤ timeout ∧
    (transcribe_audio_with_timeout w timeout = (false, none, true) ↔ timeout < w.runtime) ∧
    (transcribe_audio_with_timeout w timeout = (false, none, false) ↔
      (w.runtime ≤ timeout ∧ w.result = .raises)) ∧
    (∀ t, transcribe_audio_with_timeout w timeout = (true, t, false) ↔
      (w.runtime ≤ timeout ∧ w.result = .finishes t)) ∧
    (90 < w.runtime → (transcribe_chunk w).status = .failed ∧
      (transcribe_chunk w).returnValue = false) := by
  refine ⟨?_, ?_, ?_, ?_, ?_⟩
  · simp only [joinWaitTime, pyMin]
    split_ifs with h
    · exact h
    · exact le_refl timeout
  · simp only [transcribe_audio_with_timeout]
    split_ifs with h
    · simp [h]
    · cases hr : w.result <;> simp [hr, not_lt.mp h]
  · simp only [transcribe_audio_with_timeout]
    split_ifs with h
    · simp [not_le.mpr h]
    · cases hr : w.result <;> simp [hr, not_lt.mp h]
  · intro t
    simp only [transcribe_audio_with_timeout]
    split_ifs with h
    · simp [not_le.mpr h]
    · cases hr : w.result <;> simp [hr, not_lt.mp h]
  · intro h
    have hr : transcribe_audio_with_timeout w 90 = (false, none, true) := by
      simp only [transcribe_audio_with_timeout]
      rw [if_pos h]
    simp only [transcribe_chunk, hr]
    exact ⟨rfl, rfl⟩

/-- C3 witness: a worker that needs 100 seconds and would finish with text
exceeds the orchestrated 90-second timeout, so the chunk is failed. -/
theorem c3_invoker_timeout_contract_witness :
    (transcribe_chunk ⟨100, .finishes (some "hi")⟩).status = .failed ∧
    (transcribe_chunk ⟨100, .finishes (some "hi")⟩).returnValue = false :=
  (c3_invoker_timeout_contract ⟨100, .finishes (some "hi")⟩ 90).2.2.2.2 (by norm_num)

/-- C4 evaluation at the failing input: with windows of 30s, overlap 5s,
minimum 10s, cap 150, and maxDuration 60s, an 80-second recording is cut
into windows reaching 80s — the last window does not end at
min(80, maxDuration) = 60 and audio past maxDuration is scheduled,
because the clamp at line 288 of audio_chunking.py runs only after the
window list is complete (and line 282 is a bare break outside any loop,
a SyntaxError in the source file). -/
theorem c4_time_based_ignores_max_duration :
    create_time_based_chunks ⟨30, 5, 60, 10, 150, 60⟩ 80 = [(0, 30), (25, 55), (50, 80)] ∧
    pyMin 80 (⟨30, 5, 60, 10, 150, 60⟩ : ChunkerConfig).maxDuration = 60 := by
  constructor
  · with_unfolding_all decide
  · with_unfolding_all decide

/-- C5 counterexample: with maxChunks = 1 the speech-aware segmenter
produces 2 windows — the loop stops at the cap but the final window is
appended without a cap check. -/
theorem c5_counterexample :
    create_vad_aware_chunks ⟨30, 5, 60, 10, 1, 7200⟩
        [(0, some 20), (20, some 40), (40, some 60)] 60 = [(0, 25), (15, 60)] ∧
    1 < (create_vad_aware_chunks ⟨30, 5, 60, 10, 1, 7200⟩
        [(0, some 20), (20, some 40), (40, some 60)] 60).length := by
  constructor
  · with_unfolding_all decide
  · with_unfolding_all decide

/-- C5 amended: provided maxChunks is at least 1, the time-based segmenter
produces at most maxChunks windows, and the speech-aware segmenter
produces at most maxChunks + 1 windows (its appended final window can
exceed the cap by exactly one). -/
theorem c5_amended_window_caps (cfg : ChunkerConfig) (h1 : 1 ≤ cfg.maxChunks) :
    (∀ d, (create_time_based_chunks cfg d).length ≤ cfg.maxChunks) ∧
    (∀ segs d, (create_vad_aware_chunks cfg segs d).length ≤ cfg.maxChunks + 1) := by
  have htime : ∀ d, (create_time_based_chunks cfg d).length ≤ cfg.maxChunks := by
    intro d
    rw [create_time_based_chunks]
    split_ifs
    · simpa using h1
    · exact timeLoop_length cfg d cfg.maxChunks [] 0 (by simp)
  refine ⟨htime, ?_⟩
  intro segs d
  simp only [create_vad_aware_chunks]
  split_ifs with hle hdur
  · exact le_trans (htime d) (Nat.le_succ _)
  · rw [List.length_append]
    have := vadLoop_length segs cfg [] 0 0 (by simp)
    simp only [List.length_cons, List.length_nil]
    omega
  · exact le_trans (vadLoop_length segs cfg [] 0 0 (by simp)) (Nat.le_succ _)

/-- C5 amended witness: at the source defaults (maxChunks = 150), a
45-second recording yields at most 150 time-based windows and at most 151
speech-aware windows. -/
theorem c5_amended_window_caps_witness :
    (create_time_based_chunks defaultChunkerConfig 45).length ≤
      defaultChunkerConfig.maxChunks ∧
    (create_vad_aware_chunks defaultChunkerConfig [(0, some 20), (20, some 40)] 45).length ≤
      defaultChunkerConfig.maxChunks + 1 :=
  ⟨(c5_amended_window_caps defaultChunkerConfig (by decide)).1 45,
   (c5_amended_window_caps defaultChunkerConfig (by decide)).2 [(0, some 20), (20, some 40)] 45⟩

/-- C6 counterexample: at overlapSeconds = 2.3 the code computes
int(2.3 * 2.5) = int(5.75) = 5 candidate-estimate words where the claim's
round(5.75) = 6 would allow the search to reach candidate length 11; on
texts whose only match has length 11, the code returns the current text
unchanged while the claimed behaviour drops 11 words. -/
theorem c6_counterexample :
    remove_overlap_text
        "x x x x x x x x x x x a1 a2 a3 a4 a5 a6 a7 a8 a9 a10 a11"
        "a1 a2 a3 a4 a5 a6 a7 a8 a9 a10 a11 y y y y y y y y y y y" (23/10) =
      "a1 a2 a3 a4 a5 a6 a7 a8 a9 a10 a11 y y y y y y y y y y y" ∧
    removeOverlapClaimC6
        "x x x x x x x x x x x a1 a2 a3 a4 a5 a6 a7 a8 a9 a10 a11"
        "a1 a2 a3 a4 a5 a6 a7 a8 a9 a10 a11 y y y y y y y y y y y" (23/10) =
      "y y y y y y y y y y y" := by
  constructor
  · with_unfolding_all decide
  · with_unfolding_all decide

/-- C6 amended: the overlap trim returns currentText unchanged whenever
either text has fewer than 5 words, overlapSeconds ≤ 0, or the estimate
floor(overlapSeconds * 2.5) — Python int() truncation, not round() — is
not positive; otherwise it examines candidate lengths 1 to
min(estimate + 5, half of either word count), accepts exact or ≥ 70%
case-insensitive matches, drops the largest accepted candidate length of
leading words, and re-joins the survivors with single spaces. -/
theorem c6_amended_overlap_trim (p c : String) (od : ℚ) :
    remove_overlap_text p c od = removeOverlapAmendedC6 p c od := by
  have hsp := pyWords_pyStrip p
  have hsc := pyWords_pyStrip c
  simp only [remove_overlap_text, removeOverlapAmendedC6, hsp, hsc]
  by_cases hod : od ≤ 0
  · rw [if_pos (Or.inr (Or.inr hod)), if_pos (Or.inr (Or.inr (Or.inl hod)))]
  · have hodpos : 0 < od := lt_of_not_le hod
    have hq : (0 : ℚ) < od * (5/2) := mul_pos hodpos (by norm_num)
    have hfl : pyInt (od * (5/2 : ℚ)) = (od * (5/2 : ℚ)).floor := by
      rw [pyInt, if_neg (not_lt.mpr (le_of_lt hq))]
    by_cases hlen : (pyWords p).length < 5 ∨ (pyWords c).length < 5
    · have hamd : (pyWords p).length < 5 ∨ (pyWords c).length < 5 ∨ od ≤ 0 ∨
          (od * (5/2 : ℚ)).floor ≤ 0 := by
        rcases hlen with h | h
        · exact Or.inl h
        · exact Or.inr (Or.inl h)
      rw [if_pos hamd]
      by_cases hA : p = "" ∨ c = "" ∨ od ≤ 0
      · rw [if_pos hA]
      · rw [if_neg hA, if_pos hlen]
    · push_neg at hlen
      obtain ⟨hplen, hclen⟩ := hlen
      have hpne : p ≠ "" := by
        intro hp
        rw [hp] at hplen
        simp [pyWords, words, splitGo] at hplen
      have hcne : c ≠ "" := by
        intro hcq
        rw [hcq] at hclen
        simp [pyWords, words, splitGo] at hclen
      have hA : ¬(p = "" ∨ c = "" ∨ od ≤ 0) := by
        intro hcontra
        rcases hcontra with h | h | h
        · exact hpne h
        · exact hcne h
        · exact hod h
      rw [if_neg hA, if_neg (by omega : ¬((pyWords p).length < 5 ∨ (pyWords c).length < 5))]
      by_cases hest : pyInt (od * (5/2 : ℚ)) ≤ 0
      · rw [if_pos hest, if_pos (Or.inr (Or.inr (Or.inr (by rw [← hfl]; exact hest))))]
      · have hamd : ¬((pyWords p).length < 5 ∨ (pyWords c).length < 5 ∨ od ≤ 0 ∨
            (od * (5/2 : ℚ)).floor ≤ 0) := by
          intro hcontra
          rcases hcontra with h | h | h | h
          · omega
          · omega
          · exact hod h
          · exact hest (by rw [hfl]; exact h)
        rw [if_neg hest, if_neg hamd, hfl]
        by_cases hbest : 0 < bestOverlapMatch (pyWords p) (pyWords c)
            (min ((od * (5/2 : ℚ)).floor.toNat + 5)
              (min ((pyWords p).length / 2) ((pyWords c).length / 2)))
        · rw [if_pos hbest, if_pos hbest]
          apply pyStrip_joinWords
          · exact fun w hw => pyWords_good c w (List.mem_of_mem_drop hw)
          · have hb := bestOverlapMatch_le (pyWords p) (pyWords c)
              (min ((od * (5/2 : ℚ)).floor.toNat + 5)
                (min ((pyWords p).length / 2) ((pyWords c).length / 2)))
            have hhalf : (min ((od * (5/2 : ℚ)).floor.toNat + 5)
                (min ((pyWords p).length / 2) ((pyWords c).length / 2))) ≤
                (pyWords c).length / 2 := le_trans (min_le_right _ _) (min_le_right _ _)
            intro hcontra
            have hlen0 := congrArg List.length hcontra
            rw [List.length_drop] at hlen0
            simp only [List.length_nil] at hlen0
            omega
        · rw [if_neg hbest, if_neg hbest]

/-- C7 counterexample: reassembling ("hello there friends", 0-10s) and
("there friends how are you", 8-20s) does not yield the claimed
deduplicated transcript, because both texts have fewer than 5 words and
remove_overlap_text declines to trim. -/
theorem c7_counterexample :
    reassemble_transcript
        [⟨0, 0, 10, .completed, "hello there friends"⟩,
         ⟨1, 8, 20, .completed, "there friends how are you"⟩] ≠
      "hello there friends how are you" := by
  with_unfolding_all decide

/-- C7 amended: reassembling those two chunks yields the concatenation
with the duplicate words retained, since the 5-word minimum of the
overlap trim prevents any removal. -/
theorem c7_amended_reassembly_keeps_duplicate :
    reassemble_transcript
        [⟨0, 0, 10, .completed, "hello there friends"⟩,
         ⟨1, 8, 20, .completed, "there friends how are you"⟩] =
      "hello there friends there friends how are you" := by
  with_unfolding_all decide

/-- C8 counterexample: applying the overlap trim twice removes more than
applying it once — with previous text ending in "a b a" and current text
"a b a b a c d e f g", the first pass drops 3 words and the second pass
drops 2 more. -/
theorem c8_counterexample :
    remove_overlap_text "u v w a b a"
        (remove_overlap_text "u v w a b a" "a b a b a c d e f g" 2) 2 ≠
      remove_overlap_text "u v w a b a" "a b a b a c d e f g" 2 := by
  with_unfolding_all decide

/-- C8 amended: the overlap trim is not idempotent in general; it is
idempotent whenever the first application removes nothing. -/
theorem c8_amended_idempotent_on_noop (p c : String) (od : ℚ)
    (h : remove_overlap_text p c od = c) :
    remove_overlap_text p (remove_overlap_text p c od) od =
      remove_overlap_text p c od := by
  rw [h]
  exact h

/-- C8 amended witness: on empty inputs the trim removes nothing and a
second application changes nothing. -/
theorem c8_amended_idempotent_on_noop_witness :
    remove_overlap_text "" (remove_overlap_text "" "" 0) 0 =
      remove_overlap_text "" "" 0 :=
  c8_amended_idempotent_on_noop "" "" 0 (by with_unfolding_all decide)

/-- C9 counterexample: when every chunking strategy raises, the segmenter
returns the fixed single window (0, 30) under the default configuration —
for a 100-second file this window does not cover the whole file. -/
theorem c9_counterexample :
    create_vad_aware_chunks_onFailure defaultChunkerConfig = [(0, 30)] ∧
    ((0 : ℚ), (30 : ℚ)) ≠ ((0 : ℚ), (100 : ℚ)) := by
  constructor
  · rfl
  · with_unfolding_all decide

/-- C9 amended: total segmentation failure yields exactly one window,
namely (0, chunkDuration) — never zero windows, but covering the whole
file only when the file lasts exactly chunkDuration seconds. -/
theorem c9_amended_single_fallback_window (cfg : ChunkerConfig) :
    create_vad_aware_chunks_onFailure cfg = [(0, cfg.chunkDuration)] ∧
    (create_vad_aware_chunks_onFailure cfg).length = 1 :=
  ⟨rfl, rfl⟩
